import Mathlib

/-!
# Verification of `ea_utils.py`

A shallow embedding of the utility functions of this repository
(`src/ea_utils.py`) together with proofs of the specified properties of
slug generation (`gen_slug`), date formatting (`format_date`,
`format_datetime`) and currency formatting (`format_currency`).

Python lists are embedded as `List`, Python strings as `String`,
Python integers as `Int`/`Nat`, and fallible Python code as `Except`.
-/

/-! ## Model of the external `slugify` library

`gen_slug` calls `slugify(input_string, ok=delimiter, only_ascii=True)`
from the third-party `slugify` package, which is not part of this
repository.  The spec (section 4.1, step "Normalize") describes the
normalization it performs, so the library is modelled from those words.
-/

/-- Transliteration lookup over an association list of characters.
Returns the ASCII replacement of the first matching key, if any. -/
def translitFind : List (Char × List Char) → Char → Option (List Char)
  | [], _ => Option.none
  | (a, out) :: rest, c => if c = a then some out else translitFind rest c

/-- Modelled from the spec: the transliteration table of the external
`slugify` library ("transliterate non-ASCII characters to their closest
ASCII representation where a standard transliteration exists"; the spec
treats the exact table as an implementation detail).  The table maps
uppercase ASCII letters to their lowercase forms and accented Latin
letters to unaccented lowercase ASCII. -/
def translitTable : List (Char × List Char) :=
  [('A', ['a']), ('B', ['b']), ('C', ['c']), ('D', ['d']), ('E', ['e']),
   ('F', ['f']), ('G', ['g']), ('H', ['h']), ('I', ['i']), ('J', ['j']),
   ('K', ['k']), ('L', ['l']), ('M', ['m']), ('N', ['n']), ('O', ['o']),
   ('P', ['p']), ('Q', ['q']), ('R', ['r']), ('S', ['s']), ('T', ['t']),
   ('U', ['u']), ('V', ['v']), ('W', ['w']), ('X', ['x']), ('Y', ['y']),
   ('Z', ['z']),
   ('á', ['a']), ('à', ['a']), ('â', ['a']), ('ä', ['a']), ('ã', ['a']),
   ('å', ['a']), ('é', ['e']), ('è', ['e']), ('ê', ['e']), ('ë', ['e']),
   ('í', ['i']), ('ì', ['i']), ('î', ['i']), ('ï', ['i']), ('ó', ['o']),
   ('ò', ['o']), ('ô', ['o']), ('ö', ['o']), ('õ', ['o']), ('ú', ['u']),
   ('ù', ['u']), ('û', ['u']), ('ü', ['u']), ('ç', ['c']), ('ñ', ['n']),
   ('ý', ['y']), ('æ', ['a', 'e']), ('œ', ['o', 'e']), ('ß', ['s', 's']),
   ('Á', ['a']), ('À', ['a']), ('Â', ['a']), ('Ä', ['a']), ('Ã', ['a']),
   ('Å', ['a']), ('É', ['e']), ('È', ['e']), ('Ê', ['e']), ('Ë', ['e']),
   ('Í', ['i']), ('Ì', ['i']), ('Î', ['i']), ('Ï', ['i']), ('Ó', ['o']),
   ('Ò', ['o']), ('Ô', ['o']), ('Ö', ['o']), ('Õ', ['o']), ('Ú', ['u']),
   ('Ù', ['u']), ('Û', ['u']), ('Ü', ['u']), ('Ç', ['c']), ('Ñ', ['n'])]

/-- `true` exactly on characters that are already in final slug form:
lowercase ASCII letters and ASCII digits. -/
def asciiLowerAlnum (c : Char) : Bool :=
  ('a' ≤ c && c ≤ 'z') || ('0' ≤ c && c ≤ '9')

/-- Modelled from the spec: per-character normalization step of the
external `slugify` library.  Lowercase ASCII alphanumerics are kept,
transliterable characters are replaced by their ASCII transliteration
(which also lowercases ASCII uppercase), every other ASCII character
(whitespace and punctuation) becomes a separator (a space marker), and
non-ASCII characters without a transliteration are dropped. -/
def translit (c : Char) : List Char :=
  if asciiLowerAlnum c then [c]
  else
    match translitFind translitTable c with
    | some out => out
    | Option.none => if c.toNat < 128 then [' '] else []

/-- Splits a character list into maximal runs of non-space characters
(the words of the normalized input); `acc` holds the current word,
reversed. -/
def wordsAux : List Char → List Char → List (List Char)
  | [], acc => if acc = [] then [] else [acc.reverse]
  | c :: cs, acc =>
    if c = ' ' then
      if acc = [] then wordsAux cs [] else acc.reverse :: wordsAux cs []
    else wordsAux cs (c :: acc)

/-- The maximal space-free words of a character list. -/
def words (l : List Char) : List (List Char) :=
  wordsAux l []

/-- Joins a list of words with the delimiter between consecutive words
(so there is no leading or trailing delimiter). -/
def joinWith (d : List Char) : List (List Char) → List Char
  | [] => []
  | [w] => w
  | w :: ws => w ++ d ++ joinWith d ws

/-- Modelled from the spec: the external `slugify(text, ok, only_ascii)`
call.  Each character is normalized by `translit`, the result is split
into whitespace-separated words, and the words are joined by the `ok`
delimiter — which replaces runs of whitespace and separators by a single
delimiter and strips leading/trailing delimiters, as the spec describes.
The model always produces ASCII, so `only_ascii` does not change its
result. -/
def slugify (text : String) (ok : String) (only_ascii : Bool) : String :=
  let _ := only_ascii
  ⟨joinWith ok.toList (words ((text.toList.map translit).flatten))⟩

/-! ## The slug generator `gen_slug` (src/ea_utils.py, lines 57-75) -/

/-- The normalized base slug computed by `gen_slug` before the
disambiguation loop: `slugify(input_string, ok=delimiter,
only_ascii=True)`, re-slugified without `only_ascii` when the first pass
left a space in the result (lines 65-69). -/
def slugBase (input_string : String) (delimiter : String) : String :=
  let base := slugify input_string delimiter true
  if ' ' ∈ base.toList then slugify base delimiter false else base

/-- The candidate slug tried at step `k` of the disambiguation loop:
the base itself at step `0`, and `base ++ delimiter ++ k` (the Python
`'%s%s%i' % (base, delimiter, counter)`) for counter values `k ≥ 1`. -/
def slugCandidate (base : String) (delimiter : String) : Nat → String
  | 0 => base
  | k + 1 => base ++ delimiter ++ Nat.repr (k + 1)

/-- The `while slug in existing_slugs` loop of `gen_slug` (lines 70-75):
starting at candidate index `k`, returns the first candidate that is not
in `existing`.  The loop is given explicit fuel; `genSlugLoop_spec`
proves that fuel `existing.length + 1` always suffices, so the fuel-out
branch mirrors no reachable behaviour of the source. -/
def genSlugLoop (base : String) (delimiter : String) (existing : List String) :
    Nat → Nat → String
  | 0, k => slugCandidate base delimiter k
  | fuel + 1, k =>
    if slugCandidate base delimiter k ∈ existing then
      genSlugLoop base delimiter existing fuel (k + 1)
    else slugCandidate base delimiter k

/-- `gen_slug(input_string, existing_slugs, delimiter)` from
src/ea_utils.py lines 57-75.  In the source `existing_slugs` defaults to
`[]` and `delimiter` to `"-"`; the call-sequence model `runCall` below
embeds the default-argument semantics. -/
def gen_slug (input_string : String) (existing_slugs : List String)
    (delimiter : String) : String :=
  genSlugLoop (slugBase input_string delimiter) delimiter existing_slugs
    (existing_slugs.length + 1) 0

/-! ## State-threaded version of `gen_slug`

Python's `slug in existing_slugs` reads the caller's list object.  To
state that `gen_slug` never mutates that object (and that the shared
mutable default argument `existing_slugs=[]` never accumulates state),
the list is threaded through every access as explicit state. -/

/-- The Python membership test `slug in existing_slugs`, with the state
of the caller's list threaded through: the membership answer together
with the list state after the operation. -/
def listContains (st : List String) (x : String) : Bool × List String :=
  (decide (x ∈ st), st)

/-- State-threaded disambiguation loop: each access `gen_slug` makes to
the caller's list goes through `listContains`, and the final state of
the list is returned alongside the slug. -/
def genSlugLoopS (base d : String) :
    Nat → Nat → List String → String × List String
  | 0, k, st => (slugCandidate base d k, st)
  | fuel + 1, k, st =>
    let r := listContains st (slugCandidate base d k)
    if r.1 then genSlugLoopS base d fuel (k + 1) r.2
    else (slugCandidate base d k, r.2)

/-- State-threaded `gen_slug`: the slug together with the final state of
the caller's `existing_slugs` list. -/
def gen_slugS (input_string : String) (existing_slugs : List String)
    (delimiter : String) : String × List String :=
  genSlugLoopS (slugBase input_string delimiter) delimiter
    (existing_slugs.length + 1) 0 existing_slugs

/-- One call to `gen_slug` in a sequence of calls.  `explicitSlugs =
none` models a call that omits `existing_slugs`, so the shared mutable
default-argument list of the source (`existing_slugs=[]`) is used. -/
structure SlugCall where
  input : String
  explicitSlugs : Option (List String)
  delimiter : String

/-- Executes one call against the current state of the shared
default-argument list: a call with an explicit list leaves the default
list untouched; a call using the default reads it and stores back the
list state left by the call. -/
def runCall (defaultList : List String) (c : SlugCall) :
    String × List String :=
  match c.explicitSlugs with
  | some e => ((gen_slugS c.input e c.delimiter).1, defaultList)
  | Option.none => gen_slugS c.input defaultList c.delimiter

/-- The state of the shared default-argument list after a sequence of
calls, starting from the fresh `[]` created at function-definition
time. -/
def defaultStateAfter (history : List SlugCall) : List String :=
  history.foldl (fun st c => (runCall st c).2) []

/-! ## Decimal digit parsing (for injectivity of `Nat.repr`) -/

/-- The numeric value of a decimal digit character. -/
def digitVal (c : Char) : Nat :=
  c.toNat - 48

/-- Parses a big-endian decimal digit list on top of the accumulator
`acc`: each character contributes its digit value. -/
def listValAux (acc : Nat) : List Char → Nat
  | [] => acc
  | c :: cs => listValAux (acc * 10 + digitVal c) cs

/-! ## A fragment of the Python value universe

`format_date`, `format_datetime` and `format_currency` accept arbitrary
Python values.  The embedded fragment covers `None`, booleans,
(unbounded) integers, floats — modelled as exact decimal values
`mantissa / 10 ^ scale`; the rounding of decimals to binary doubles is
not modelled — strings, `datetime.datetime` values, and type objects
(identified by the type name). -/

inductive PyVal where
  | none
  | bool (b : Bool)
  | int (n : Int)
  | float (mantissa : Int) (scale : Nat)
  | str (s : String)
  | datetime (year month day hour minute : Nat)
  | typeObj (name : String)
deriving DecidableEq

/-- Python truthiness: `None`, `False`, numeric zero and the empty
string are falsy; datetime values and type objects are always truthy. -/
def isFalsy : PyVal → Bool
  | .none => true
  | .bool b => !b
  | .int n => n == 0
  | .float m _ => m == 0
  | .str s => s == ""
  | .datetime .. => false
  | .typeObj _ => false

/-- The name of the Python type of a value (`type(v).__name__`). -/
def pyTypeName : PyVal → String
  | .none => "NoneType"
  | .bool _ => "bool"
  | .int _ => "int"
  | .float _ _ => "float"
  | .str _ => "str"
  | .datetime .. => "datetime"
  | .typeObj _ => "type"

/-- The Python builtin `type(v)`: a type object. -/
def pyType (v : PyVal) : PyVal :=
  .typeObj (pyTypeName v)

/-- Whether the exact decimal `m / 10 ^ e` equals the integer `n`. -/
def floatEqInt (m : Int) (e : Nat) (n : Int) : Bool :=
  m == n * (10 : Int) ^ e

/-- Model of Python `==` on the embedded value fragment: values of the
same kind compare componentwise, the numeric kinds (`bool`, `int`,
`float`) compare by numeric value also across kinds, and every other
cross-kind comparison — in particular a type object against a string —
is `False` (the default identity-based equality of unrelated types). -/
def pyEq : PyVal → PyVal → Bool
  | .none, .none => true
  | .bool a, .bool b => a == b
  | .bool a, .int n => (if a then (1 : Int) else 0) == n
  | .int n, .bool a => n == (if a then (1 : Int) else 0)
  | .bool a, .float m e => floatEqInt m e (if a then 1 else 0)
  | .float m e, .bool a => floatEqInt m e (if a then 1 else 0)
  | .int a, .int b => a == b
  | .int a, .float m e => floatEqInt m e a
  | .float m e, .int a => floatEqInt m e a
  | .float m e, .float m2 e2 => m * (10 : Int) ^ e2 == m2 * (10 : Int) ^ e
  | .str a, .str b => a == b
  | .datetime y1 mo1 d1 h1 mi1, .datetime y2 mo2 d2 h2 mi2 =>
    y1 == y2 && mo1 == mo2 && d1 == d2 && h1 == h2 && mi1 == mi2
  | .typeObj a, .typeObj b => a == b
  | _, _ => false

/-- `format_date(d, format)` from src/ea_utils.py lines 124-137.  The
`strftime` method of datetime objects is external to the embedding, so
the function is parametrized by it. -/
def format_date (strftime : PyVal → String → String) (d : PyVal)
    (format : String) : PyVal :=
  if isFalsy d then .str ""
  else if !(pyEq (pyType d) (.str "datetime")) then d
  else .str (strftime d format)

/-- `format_datetime(d, format)` from src/ea_utils.py lines 140-153;
the body is identical to `format_date` (only the default format string
differs). -/
def format_datetime (strftime : PyVal → String → String) (d : PyVal)
    (format : String) : PyVal :=
  if isFalsy d then .str ""
  else if !(pyEq (pyType d) (.str "datetime")) then d
  else .str (strftime d format)

/-! ## Model of `float()` and `"{:,.2f}".format` for `format_currency` -/

/-- Python exception kinds raised by the modelled builtins. -/
inductive PyErr where
  | valueError
  | typeError
  | overflowError
deriving DecidableEq

/-- `true` exactly on ASCII decimal digits. -/
def isDigitChar (c : Char) : Bool :=
  '0' ≤ c && c ≤ '9'

/-- Parses the digit run and optional fractional part of a Python float
literal, returning mantissa and decimal-place count.  Accepts the forms
`digits`, `digits.digits`, `digits.` and `.digits`. -/
def parseFloatCore (l : List Char) : Option (Nat × Nat) :=
  let intPart := l.takeWhile isDigitChar
  let rest := l.dropWhile isDigitChar
  match rest with
  | [] =>
    if intPart.isEmpty then Option.none else some (listValAux 0 intPart, 0)
  | '.' :: frac =>
    if frac.all isDigitChar && !(intPart.isEmpty && frac.isEmpty) then
      some (listValAux (listValAux 0 intPart) frac, frac.length)
    else Option.none
  | _ => Option.none

/-- Model of the float-literal parsing performed by `float(str)` on the
embedded fragment: optional surrounding spaces, an optional sign, and a
plain decimal literal.  Specials (`inf`, `nan`), exponents and
underscores are outside the modelled fragment. -/
def pyFloatOfString (s : String) : Option (Int × Nat) :=
  let l := ((s.toList.dropWhile (· = ' ')).reverse.dropWhile (· = ' ')).reverse
  match l with
  | '-' :: rest => (parseFloatCore rest).map (fun p => (-(p.1 : Int), p.2))
  | '+' :: rest => (parseFloatCore rest).map (fun p => ((p.1 : Int), p.2))
  | _ => (parseFloatCore l).map (fun p => ((p.1 : Int), p.2))

/-- The smallest integer magnitude on which CPython `float(int)` raises
`OverflowError`: integers of magnitude at least `2 ^ 1024 - 2 ^ 970`
round to `2 ^ 1024`, beyond the largest finite IEEE-754 double. -/
def floatOverflowBound : Nat :=
  2 ^ 1024 - 2 ^ 970

/-- Model of the Python builtin `float(value)` on the embedded value
fragment.  Booleans convert to 0/1, integers convert exactly but raise
`OverflowError` beyond the double range, floats pass through, strings
are parsed (`ValueError` on failure), and every other kind raises
`TypeError`. -/
def pyFloat : PyVal → Except PyErr (Int × Nat)
  | .bool b => .ok (if b then (1 : Int) else 0, 0)
  | .int n =>
    if n.natAbs < floatOverflowBound then .ok (n, 0)
    else .error .overflowError
  | .float m e => .ok (m, e)
  | .str s =>
    match pyFloatOfString s with
    | some p => .ok p
    | Option.none => .error .valueError
  | .none => .error .typeError
  | .datetime .. => .error .typeError
  | .typeObj _ => .error .typeError

/-- Rounds `n / d` (for `d > 0`) to the nearest integer, ties to
even. -/
def rhEvenDiv (n d : Nat) : Nat :=
  let q := n / d
  let r := n % d
  if 2 * r < d then q
  else if d < 2 * r then q + 1
  else if q % 2 = 0 then q else q + 1

/-- The number of cents in the magnitude of the exact decimal
`m / 10 ^ e`, rounded half to even (the rounding performed by
`"{:,.2f}".format`). -/
def centsAbs (m : Int) (e : Nat) : Nat :=
  rhEvenDiv (m.natAbs * 100) (10 ^ e)

/-- Inserts a comma after every three characters of a reversed digit
list (grouping the original number in blocks of three from the
right). -/
def commaChunks : List Char → List Char
  | a :: b :: c :: d :: rest => a :: b :: c :: ',' :: commaChunks (d :: rest)
  | l => l

/-- Renders a natural number in decimal with thousands separators. -/
def natToCommaString (n : Nat) : String :=
  ⟨(commaChunks (Nat.toDigits 10 n).reverse).reverse⟩

/-- Model of `"{:,.2f}".format(x)` for the exact decimal
`x = m / 10 ^ e`: sign, comma-grouped integer part, and exactly two
fractional digits, rounded half to even. -/
def formatCurrencyNumber (m : Int) (e : Nat) : String :=
  let cents := centsAbs m e
  let sign := if m < 0 then "-" else ""
  sign ++ natToCommaString (cents / 100) ++ "." ++
    ⟨[Nat.digitChar (cents / 10 % 10), Nat.digitChar (cents % 10)]⟩

/-- `format_currency(value)` from src/ea_utils.py lines 109-121: tries
`float(value)` and formats the result as a dollar amount; the
`except (ValueError, TypeError)` clause returns the input unchanged on
exactly those two errors, and any other exception propagates. -/
def format_currency (value : PyVal) : Except PyErr PyVal :=
  match pyFloat value with
  | .ok (m, e) => .ok (.str ("$" ++ formatCurrencyNumber m e))
  | .error e =>
    if e = .valueError ∨ e = .typeError then .ok value else .error e

/-- Equality of embedded fallible results is decidable (needed to
evaluate the formatting helpers on concrete inputs). -/
instance exceptDecEq {e a : Type} [DecidableEq e] [DecidableEq a] :
    DecidableEq (Except e a) := fun x y =>
  match x, y with
  | .ok v, .ok w =>
    if h : v = w then isTrue (by rw [h])
    else isFalse (fun hc => h (by injection hc))
  | .error v, .error w =>
    if h : v = w then isTrue (by rw [h])
    else isFalse (fun hc => h (by injection hc))
  | .ok _, .error _ => isFalse (fun hc => Except.noConfusion hc)
  | .error _, .ok _ => isFalse (fun hc => Except.noConfusion hc)

example : slugBase "Hello World" "-" = "hello-world" := by decide
example : gen_slug "Hello World" [] "-" = "hello-world" := by decide
example : gen_slug "Hello World" ["hello-world"] "-" = "hello-world-1" := by decide
example : gen_slug "" [""] "-" = "-1" := by decide
example : slugBase "Café Münchner" "-" = "cafe-munchner" := by decide

/-! ## Injectivity of `Nat.repr`

The disambiguation loop of `gen_slug` relies on distinct counter values
producing distinct candidate slugs.  This follows from injectivity of the
decimal rendering `Nat.repr`, proved here by parsing the rendered digits
back to the number. -/

theorem listValAux_append (xs : List Char) :
    ∀ (acc : Nat) (ys : List Char),
      listValAux acc (xs ++ ys) = listValAux (listValAux acc xs) ys := by
  induction xs with
  | nil => intro acc ys; rfl
  | cons c cs ih => intro acc ys; exact ih (acc * 10 + digitVal c) ys

theorem digitVal_digitChar (n : Nat) (h : n < 10) :
    digitVal (Nat.digitChar n) = n := by
  interval_cases n <;> decide

/-- Appending to the accumulator list of `Nat.toDigitsCore` is the same
as appending to its output. -/
theorem toDigitsCore_append (fuel : Nat) :
    ∀ (n : Nat) (ds : List Char),
      Nat.toDigitsCore 10 fuel n ds = Nat.toDigitsCore 10 fuel n [] ++ ds := by
  induction fuel with
  | zero => intro n ds; simp [Nat.toDigitsCore]
  | succ fuel ih =>
    intro n ds
    simp only [Nat.toDigitsCore]
    by_cases h : n / 10 = 0
    · simp [h]
    · rw [if_neg h, if_neg h, ih (n / 10) (Nat.digitChar (n % 10) :: ds),
        ih (n / 10) [Nat.digitChar (n % 10)], List.append_assoc]
      rfl

/-- One unfolding step of `Nat.toDigitsCore` at base 10. -/
theorem toDigitsCore_succ (fuel n : Nat) (ds : List Char) :
    Nat.toDigitsCore 10 (fuel + 1) n ds =
      if n / 10 = 0 then Nat.digitChar (n % 10) :: ds
      else Nat.toDigitsCore 10 fuel (n / 10) (Nat.digitChar (n % 10) :: ds) :=
  rfl

/-- Parsing the digits produced by `Nat.toDigitsCore` recovers the
number, for any sufficient fuel. -/
theorem listValAux_toDigitsCore (n : Nat) :
    ∀ fuel, n < fuel → listValAux 0 (Nat.toDigitsCore 10 fuel n []) = n := by
  induction n using Nat.strong_induction_on with
  | _ n ih =>
    intro fuel hlt
    cases fuel with
    | zero => exact absurd hlt (Nat.not_lt_zero n)
    | succ fuel =>
      rw [toDigitsCore_succ]
      by_cases h : n / 10 = 0
      · have hn : n < 10 := by omega
        have hmod : n % 10 = n := Nat.mod_eq_of_lt hn
        rw [if_pos h, hmod]
        show 0 * 10 + digitVal (Nat.digitChar n) = n
        rw [digitVal_digitChar n hn]
        omega
      · rw [if_neg h, toDigitsCore_append, listValAux_append]
        have hdiv : n / 10 < n := Nat.div_lt_self (by omega) (by norm_num)
        rw [ih (n / 10) hdiv fuel (by omega)]
        show n / 10 * 10 + digitVal (Nat.digitChar (n % 10)) = n
        rw [digitVal_digitChar _ (Nat.mod_lt n (by omega))]
        omega

theorem listValAux_repr (n : Nat) : listValAux 0 (Nat.repr n).data = n := by
  have : (Nat.repr n).data = Nat.toDigitsCore 10 (n + 1) n [] := rfl
  rw [this]
  exact listValAux_toDigitsCore n (n + 1) (Nat.lt_succ_self n)

theorem nat_repr_injective : Function.Injective Nat.repr := by
  intro m n h
  have := congrArg (fun s : String => listValAux 0 s.data) h
  simpa [listValAux_repr] using this

/-- The decimal rendering of a number is never the empty string. -/
theorem repr_ne_empty (n : Nat) : (Nat.repr n).data ≠ [] := by
  have : (Nat.repr n).data = Nat.toDigitsCore 10 (n + 1) n [] := rfl
  rw [this]
  simp only [Nat.toDigitsCore]
  by_cases h : n / 10 = 0
  · simp [h]
  · rw [if_neg h, toDigitsCore_append]
    simp

/-! ## Distinctness of candidate slugs -/

theorem string_data_append (a b : String) : (a ++ b).data = a.data ++ b.data :=
  rfl

theorem slugCandidate_injective (base d : String) :
    Function.Injective (slugCandidate base d) := by
  intro j k h
  match j, k with
  | 0, 0 => rfl
  | 0, k + 1 =>
    exfalso
    have := congrArg (fun s : String => s.data.length) h
    simp only [slugCandidate, string_data_append, List.length_append] at this
    have hne := repr_ne_empty (k + 1)
    have : (Nat.repr (k + 1)).data.length = 0 ∧ d.data.length = 0 := by omega
    exact hne (List.length_eq_zero.mp this.1)
  | j + 1, 0 =>
    exfalso
    have := congrArg (fun s : String => s.data.length) h
    simp only [slugCandidate, string_data_append, List.length_append] at this
    have hne := repr_ne_empty (j + 1)
    have : (Nat.repr (j + 1)).data.length = 0 ∧ d.data.length = 0 := by omega
    exact hne (List.length_eq_zero.mp this.1)
  | j + 1, k + 1 =>
    have hdata := congrArg String.data h
    simp only [slugCandidate, string_data_append, List.append_assoc] at hdata
    have h1 := List.append_cancel_left hdata
    have h2 := List.append_cancel_left h1
    have : Nat.repr (j + 1) = Nat.repr (k + 1) := congrArg String.mk h2
    have := nat_repr_injective this
    omega

/-! ## Correctness of the disambiguation loop -/

/-- The disambiguation loop returns the first candidate not in the
existing-slug list, provided some candidate within the available fuel is
not in the list. -/
theorem genSlugLoop_spec (base d : String) (E : List String) :
    ∀ (fuel k : Nat), (∃ j, j ≤ fuel ∧ slugCandidate base d (k + j) ∉ E) →
      ∃ j, j ≤ fuel ∧ slugCandidate base d (k + j) ∉ E ∧
        (∀ i, i < j → slugCandidate base d (k + i) ∈ E) ∧
        genSlugLoop base d E fuel k = slugCandidate base d (k + j) := by
  intro fuel
  induction fuel with
  | zero =>
    rintro k ⟨j, hj, hnot⟩
    have hj0 : j = 0 := Nat.le_zero.mp hj
    subst hj0
    exact ⟨0, Nat.le_refl 0, hnot, fun i hi => absurd hi (Nat.not_lt_zero i),
      rfl⟩
  | succ fuel ih =>
    rintro k ⟨j, hj, hnot⟩
    by_cases hmem : slugCandidate base d k ∈ E
    · match j, hj, hnot with
      | 0, _, hnot => exact absurd (by simpa using hmem) hnot
      | j' + 1, hj, hnot =>
        have hshift : k + (j' + 1) = (k + 1) + j' := by omega
        rw [hshift] at hnot
        obtain ⟨j2, h1, h2, h3, h4⟩ := ih (k + 1) ⟨j', by omega, hnot⟩
        refine ⟨j2 + 1, by omega, ?_, ?_, ?_⟩
        · have : k + (j2 + 1) = (k + 1) + j2 := by omega
          rw [this]; exact h2
        · intro i hi
          match i, hi with
          | 0, _ => simpa using hmem
          | i' + 1, hi =>
            have : k + (i' + 1) = (k + 1) + i' := by omega
            rw [this]; exact h3 i' (by omega)
        · show genSlugLoop base d E (fuel + 1) k = _
          rw [genSlugLoop, if_pos hmem, h4]
          congr 1
          omega
    · refine ⟨0, Nat.zero_le _, by simpa using hmem,
        fun i hi => absurd hi (Nat.not_lt_zero i), ?_⟩
      show genSlugLoop base d E (fuel + 1) k = slugCandidate base d (k + 0)
      rw [genSlugLoop, if_neg hmem]
      congr 1

/-- Pigeonhole: among the first `E.length + 1` candidate slugs, at least
one is not in `E`, because the candidates are pairwise distinct. -/
theorem exists_candidate_not_mem (base d : String) (E : List String) :
    ∃ j, j ≤ E.length ∧ slugCandidate base d j ∉ E := by
  by_contra hc
  push_neg at hc
  have hnodup : ((List.range (E.length + 1)).map (slugCandidate base d)).Nodup :=
    (List.nodup_range (E.length + 1)).map (slugCandidate_injective base d)
  have hsub : ((List.range (E.length + 1)).map (slugCandidate base d)) ⊆ E := by
    intro x hx
    simp only [List.mem_map, List.mem_range] at hx
    obtain ⟨j, hj, rfl⟩ := hx
    exact hc j (Nat.lt_succ_iff.mp hj)
  have hlen := (hnodup.subperm hsub).length_le
  simp at hlen

/-- A predicate on `Nat` has at most one minimal witness. -/
theorem min_index_unique {P : Nat → Prop} {j j' : Nat}
    (h2 : P j) (h3 : ∀ i, i < j → ¬P i)
    (h2' : P j') (h3' : ∀ i, i < j' → ¬P i) : j = j' := by
  rcases Nat.lt_trichotomy j j' with h | h | h
  · exact absurd h2 (h3' j h)
  · exact h
  · exact absurd h2' (h3 j' h)

/-- Full characterization of `gen_slug`: it returns the first candidate
slug (base, then base-delimiter-counter for counters 1, 2, ...) that is
not in the existing-slug list, and that candidate is found within
`E.length` steps. -/
theorem gen_slug_eq_min (s : String) (E : List String) (d : String) :
    ∃ j, j ≤ E.length ∧ slugCandidate (slugBase s d) d j ∉ E ∧
      (∀ i, i < j → slugCandidate (slugBase s d) d i ∈ E) ∧
      gen_slug s E d = slugCandidate (slugBase s d) d j := by
  obtain ⟨j0, hj0, hnot0⟩ := exists_candidate_not_mem (slugBase s d) d E
  obtain ⟨j, h1, h2, h3, h4⟩ :=
    genSlugLoop_spec (slugBase s d) d E (E.length + 1) 0
      ⟨j0, by omega, by simpa using hnot0⟩
  have hjle : j ≤ E.length := by
    by_contra hgt
    exact hnot0 (by simpa using h3 j0 (by omega))
  exact ⟨j, hjle, by simpa using h2, fun i hi => by simpa using h3 i hi,
    by simpa [gen_slug] using h4⟩

/-! ## Claims C1, C2, C4: uniqueness, disambiguation, termination -/

/-- C1: for every input string `s`, every existing-slug list `E`, and
every delimiter `d`, the slug returned by `gen_slug s E d` is not an
element of `E`. -/
theorem gen_slug_not_mem (s : String) (E : List String) (d : String) :
    gen_slug s E d ∉ E := by
  obtain ⟨j, _, h2, _, h4⟩ := gen_slug_eq_min s E d
  rw [h4]
  exact h2

/-- C2: if the normalized base is not in the existing-slug list,
`gen_slug` returns it unchanged; otherwise it returns the base followed
by the delimiter and the smallest counter value `k ≥ 1` whose candidate
is not in the list.  In particular the "Hello World" call sequence
returns "hello-world", "hello-world-1", "hello-world-2". -/
theorem gen_slug_disambiguation :
    (∀ (s : String) (E : List String) (d : String),
      (slugBase s d ∉ E → gen_slug s E d = slugBase s d) ∧
      (slugBase s d ∈ E → ∃ k, 1 ≤ k ∧
        gen_slug s E d = slugBase s d ++ d ++ Nat.repr k ∧
        slugBase s d ++ d ++ Nat.repr k ∉ E ∧
        ∀ j, 1 ≤ j → j < k → slugBase s d ++ d ++ Nat.repr j ∈ E)) ∧
    gen_slug "Hello World" [] "-" = "hello-world" ∧
    gen_slug "Hello World" ["hello-world"] "-" = "hello-world-1" ∧
    gen_slug "Hello World" ["hello-world", "hello-world-1"] "-" =
      "hello-world-2" := by
  refine ⟨?_, by decide, by decide, by decide⟩
  intro s E d
  obtain ⟨j, hle, h2, h3, h4⟩ := gen_slug_eq_min s E d
  constructor
  · intro hbase
    cases j with
    | zero => simpa [slugCandidate] using h4
    | succ j' =>
      exact absurd (by simpa [slugCandidate] using h3 0 (Nat.succ_pos j')) hbase
  · intro hbase
    cases j with
    | zero => exact absurd hbase (by simpa [slugCandidate] using h2)
    | succ j' =>
      refine ⟨j' + 1, by omega, ?_, ?_, ?_⟩
      · simpa [slugCandidate] using h4
      · simpa [slugCandidate] using h2
      · intro i h1i hik
        cases i with
        | zero => omega
        | succ i' => simpa [slugCandidate] using h3 (i' + 1) (by omega)

/-- Witness for C2: both branches of the disambiguation contract hold at
concrete inputs. -/
theorem gen_slug_disambiguation_witness :
    gen_slug "Cafe" [] "-" = slugBase "Cafe" "-" ∧
    (∃ k, 1 ≤ k ∧
      gen_slug "Cafe" ["cafe"] "-" = slugBase "Cafe" "-" ++ "-" ++ Nat.repr k ∧
      slugBase "Cafe" "-" ++ "-" ++ Nat.repr k ∉ ["cafe"] ∧
      ∀ j, 1 ≤ j → j < k →
        slugBase "Cafe" "-" ++ "-" ++ Nat.repr j ∈ ["cafe"]) :=
  ⟨(gen_slug_disambiguation.1 "Cafe" [] "-").1 (by decide),
   (gen_slug_disambiguation.1 "Cafe" ["cafe"] "-").2 (by decide)⟩

/-- C4: the counter loop terminates for any finite existing-slug list:
a candidate absent from `E` is found within `E.length` steps, and any
fuel of at least `E.length + 1` yields that same result. -/
theorem gen_slug_terminates (s : String) (E : List String) (d : String)
    (fuel : Nat) (hfuel : E.length + 1 ≤ fuel) :
    ∃ k, k ≤ E.length ∧ slugCandidate (slugBase s d) d k ∉ E ∧
      genSlugLoop (slugBase s d) d E fuel 0 =
        slugCandidate (slugBase s d) d k ∧
      gen_slug s E d = slugCandidate (slugBase s d) d k := by
  obtain ⟨j, hle, h2, h3, h4⟩ := gen_slug_eq_min s E d
  obtain ⟨j0, hj0, hnot0⟩ := exists_candidate_not_mem (slugBase s d) d E
  obtain ⟨j2, g1, g2, g3, g4⟩ :=
    genSlugLoop_spec (slugBase s d) d E fuel 0
      ⟨j0, by omega, by simpa using hnot0⟩
  have hj2 : j2 = j :=
    min_index_unique (P := fun i => slugCandidate (slugBase s d) d i ∉ E)
      (by simpa using g2) (fun i hi => not_not_intro (by simpa using g3 i hi))
      h2 (fun i hi => not_not_intro (h3 i hi))
  rw [hj2] at g4
  exact ⟨j, hle, h2, by simpa using g4, h4⟩

/-- Witness for C4 at a concrete input with surplus fuel. -/
theorem gen_slug_terminates_witness :
    ∃ k, k ≤ 1 ∧ slugCandidate (slugBase "a" "-") "-" k ∉ ["a"] ∧
      genSlugLoop (slugBase "a" "-") "-" ["a"] 7 0 =
        slugCandidate (slugBase "a" "-") "-" k ∧
      gen_slug "a" ["a"] "-" = slugCandidate (slugBase "a" "-") "-" k :=
  gen_slug_terminates "a" ["a"] "-" 7 (by decide)

/-! ## Claim C3: the alphabet of generated slugs -/

/-- Every replacement substring in the transliteration table respects a
property that all lookup results must satisfy. -/
theorem translitFind_all {P : Char → Prop} :
    ∀ (t : List (Char × List Char)), (∀ p ∈ t, ∀ c ∈ p.2, P c) →
      ∀ (ch : Char) (out : List Char), translitFind t ch = some out →
        ∀ c ∈ out, P c := by
  intro t
  induction t with
  | nil => intro _ ch out h; simp [translitFind] at h
  | cons p rest ih =>
    intro hall ch out h
    obtain ⟨a, o⟩ := p
    simp only [translitFind] at h
    by_cases hc : ch = a
    · rw [if_pos hc] at h
      injection h with h
      subst h
      exact fun c hc' => hall (a, o) (List.mem_cons_self _ _) c hc'
    · rw [if_neg hc] at h
      exact ih (fun q hq => hall q (List.mem_cons_of_mem _ hq)) ch out h

/-- Every character produced by the per-character normalization is a
lowercase ASCII alphanumeric or the space separator. -/
theorem translit_chars (ch c : Char) (h : c ∈ translit ch) :
    asciiLowerAlnum c = true ∨ c = ' ' := by
  unfold translit at h
  by_cases h1 : asciiLowerAlnum ch
  · rw [if_pos h1] at h
    simp at h
    subst h
    exact Or.inl h1
  · rw [if_neg h1] at h
    cases hf : translitFind translitTable ch with
    | some out =>
      rw [hf] at h
      exact Or.inl (translitFind_all (P := fun c => asciiLowerAlnum c = true)
        translitTable (by decide) ch out hf c h)
    | none =>
      rw [hf] at h
      by_cases h2 : ch.toNat < 128
      · rw [if_pos h2] at h
        simp at h
        subst h
        exact Or.inr rfl
      · rw [if_neg h2] at h
        simp at h

theorem flatten_translit_chars (l : List Char) (c : Char)
    (h : c ∈ (l.map translit).flatten) :
    asciiLowerAlnum c = true ∨ c = ' ' := by
  rw [List.mem_flatten] at h
  obtain ⟨w, hw, hc⟩ := h
  rw [List.mem_map] at hw
  obtain ⟨ch, _, rfl⟩ := hw
  exact translit_chars ch c hc

/-- Characters of the words extracted by `wordsAux` are non-space
characters of the input (or of the accumulator). -/
theorem wordsAux_chars {P : Char → Prop} :
    ∀ (l acc : List Char), (∀ c ∈ l, c ≠ ' ' → P c) →
      (∀ c ∈ acc, P c ∧ c ≠ ' ') →
      ∀ w ∈ wordsAux l acc, ∀ c ∈ w, P c ∧ c ≠ ' ' := by
  intro l
  induction l with
  | nil =>
    intro acc _ hacc w hw c hc
    simp only [wordsAux] at hw
    by_cases h : acc = []
    · rw [if_pos h] at hw
      simp at hw
    · rw [if_neg h] at hw
      simp at hw
      subst hw
      exact hacc c (by simpa using hc)
  | cons x xs ih =>
    intro acc hl hacc w hw c hc
    simp only [wordsAux] at hw
    by_cases hx : x = ' '
    · rw [if_pos hx] at hw
      by_cases h : acc = []
      · rw [if_pos h] at hw
        exact ih [] (fun c h1 h2 => hl c (List.mem_cons_of_mem _ h1) h2)
          (by simp) w hw c hc
      · rw [if_neg h] at hw
        rcases List.mem_cons.mp hw with h1 | h1
        · subst h1
          exact hacc c (by simpa using hc)
        · exact ih [] (fun c h1 h2 => hl c (List.mem_cons_of_mem _ h1) h2)
            (by simp) w h1 c hc
    · rw [if_neg hx] at hw
      refine ih (x :: acc) (fun c h1 h2 => hl c (List.mem_cons_of_mem _ h1) h2)
        ?_ w hw c hc
      intro c h1
      rcases List.mem_cons.mp h1 with h2 | h2
      · subst h2
        exact ⟨hl c (List.mem_cons_self _ _) hx, hx⟩
      · exact hacc c h2

/-- Characters of a delimiter-joined word list come from the words or
from the delimiter. -/
theorem joinWith_chars (d : List Char) :
    ∀ (ws : List (List Char)) (c : Char), c ∈ joinWith d ws →
      (∃ w ∈ ws, c ∈ w) ∨ c ∈ d := by
  intro ws
  induction ws with
  | nil => intro c hc; simp [joinWith] at hc
  | cons w ws ih =>
    intro c hc
    cases ws with
    | nil => exact Or.inl ⟨w, by simp, by simpa [joinWith] using hc⟩
    | cons w2 ws2 =>
      simp only [joinWith, List.mem_append] at hc
      rcases hc with (hc | hc) | hc
      · exact Or.inl ⟨w, List.mem_cons_self _ _, hc⟩
      · exact Or.inr hc
      · rcases ih c hc with ⟨w', hw', hc'⟩ | hc'
        · exact Or.inl ⟨w', List.mem_cons_of_mem _ hw', hc'⟩
        · exact Or.inr hc'

/-- Every character of a `slugify` result is a lowercase ASCII
alphanumeric or a character of the `ok` delimiter string. -/
theorem slugify_chars (s ok : String) (b : Bool) (c : Char)
    (h : c ∈ (slugify s ok b).toList) :
    asciiLowerAlnum c = true ∨ c ∈ ok.toList := by
  have h' : c ∈ joinWith ok.toList (words ((s.toList.map translit).flatten)) := h
  rcases joinWith_chars ok.toList _ c h' with ⟨w, hw, hc⟩ | hc
  · have := wordsAux_chars (P := fun c => asciiLowerAlnum c = true ∨ c = ' ')
      ((s.toList.map translit).flatten) []
      (fun c hcl _ => flatten_translit_chars _ c hcl) (by simp) w hw c hc
    rcases this with ⟨h1 | h1, h2⟩
    · exact Or.inl h1
    · exact absurd h1 h2
  · exact Or.inr hc

theorem slugBase_chars (s d : String) (c : Char)
    (h : c ∈ (slugBase s d).toList) :
    asciiLowerAlnum c = true ∨ c ∈ d.toList := by
  simp only [slugBase] at h
  by_cases hsp : ' ' ∈ (slugify s d true).toList
  · rw [if_pos hsp] at h
    exact slugify_chars _ _ _ c h
  · rw [if_neg hsp] at h
    exact slugify_chars _ _ _ c h

/-- With no existing slugs the loop returns the normalized base at
once. -/
theorem gen_slug_nil (s d : String) : gen_slug s [] d = slugBase s d := by
  simp [gen_slug, genSlugLoop, slugCandidate]

theorem asciiLowerAlnum_iff (c : Char) :
    asciiLowerAlnum c = true ↔
      ('a' ≤ c ∧ c ≤ 'z') ∨ ('0' ≤ c ∧ c ≤ '9') := by
  simp [asciiLowerAlnum]

/-- Lowercase letters, digits and the hyphen are neither the space
character nor uppercase letters. -/
theorem slug_char_not_space_upper {c : Char}
    (h : ('a' ≤ c ∧ c ≤ 'z') ∨ ('0' ≤ c ∧ c ≤ '9') ∨ c = '-') :
    c ≠ ' ' ∧ ¬('A' ≤ c ∧ c ≤ 'Z') := by
  constructor
  · rintro rfl
    rcases h with ⟨h1, _⟩ | ⟨h1, _⟩ | h1 <;> revert h1 <;> decide
  · rintro ⟨hA, hZ⟩
    rcases h with ⟨h1, h2⟩ | ⟨h1, h2⟩ | h1
    · exact absurd (le_trans h1 hZ) (by decide)
    · exact absurd (le_trans hA h2) (by decide)
    · subst h1
      exact absurd hA (by decide)

/-- C3: for every input string, the slug generated against an empty
existing-slug list contains only lowercase ASCII letters, ASCII digits,
and characters of the delimiter; with the default delimiter it contains
no space and no uppercase letter. -/
theorem gen_slug_chars :
    (∀ (s d : String), ∀ c ∈ (gen_slug s [] d).toList,
      ('a' ≤ c ∧ c ≤ 'z') ∨ ('0' ≤ c ∧ c ≤ '9') ∨ c ∈ d.toList) ∧
    (∀ (s : String), ∀ c ∈ (gen_slug s [] "-").toList,
      c ≠ ' ' ∧ ¬('A' ≤ c ∧ c ≤ 'Z')) := by
  have main : ∀ (s d : String), ∀ c ∈ (gen_slug s [] d).toList,
      ('a' ≤ c ∧ c ≤ 'z') ∨ ('0' ≤ c ∧ c ≤ '9') ∨ c ∈ d.toList := by
    intro s d c hc
    rw [gen_slug_nil] at hc
    rcases slugBase_chars s d c hc with h | h
    · rcases (asciiLowerAlnum_iff c).mp h with h | h
      · exact Or.inl h
      · exact Or.inr (Or.inl h)
    · exact Or.inr (Or.inr h)
  refine ⟨main, ?_⟩
  intro s c hc
  rcases main s "-" c hc with h | h | h
  · exact slug_char_not_space_upper (Or.inl h)
  · exact slug_char_not_space_upper (Or.inr (Or.inl h))
  · exact slug_char_not_space_upper (Or.inr (Or.inr (by simpa using h)))

/-- Witness for C3 at a concrete input and character. -/
theorem gen_slug_chars_witness :
    (('a' ≤ 'h' ∧ 'h' ≤ 'z') ∨ ('0' ≤ 'h' ∧ 'h' ≤ '9') ∨ 'h' ∈ "-".toList) ∧
    ('h' ≠ ' ' ∧ ¬('A' ≤ 'h' ∧ 'h' ≤ 'Z')) :=
  ⟨gen_slug_chars.1 "Hi" "-" 'h' (by decide),
   gen_slug_chars.2 "Hi" 'h' (by decide)⟩

/-- C7: with a custom delimiter the delimiter appears both inside the
base and before the counter. -/
theorem gen_slug_custom_delimiter :
    gen_slug "Hello World" [] "_" = "hello_world" ∧
    gen_slug "Hello World" ["hello_world"] "_" = "hello_world_1" := by
  constructor <;> decide

/-- C8: empty input yields the empty base, and disambiguation still
applies to it. -/
theorem gen_slug_empty_input :
    gen_slug "" [] "-" = "" ∧ gen_slug "" [""] "-" = "-1" := by
  constructor <;> decide

/-! ## Claims C5, C6: purity of `gen_slug` -/

/-- The state-threaded loop computes the pure loop's slug and leaves the
list state unchanged. -/
theorem genSlugLoopS_eq (base d : String) :
    ∀ (fuel k : Nat) (st : List String),
      genSlugLoopS base d fuel k st = (genSlugLoop base d st fuel k, st) := by
  intro fuel
  induction fuel with
  | zero => intro k st; rfl
  | succ fuel ih =>
    intro k st
    show (if decide (slugCandidate base d k ∈ st) then
        genSlugLoopS base d fuel (k + 1) st
      else (slugCandidate base d k, st)) = _
    by_cases h : slugCandidate base d k ∈ st
    · rw [ih]
      simp [h, genSlugLoop]
    · simp [h, genSlugLoop]

/-- C5: `gen_slug` does not mutate the caller's existing-slug list —
after the state-threaded run the list is exactly the one passed in, and
the computed slug is that of the pure function. -/
theorem gen_slug_no_mutation (s : String) (E : List String) (d : String) :
    (gen_slugS s E d).2 = E ∧ (gen_slugS s E d).1 = gen_slug s E d := by
  constructor
  · rw [gen_slugS, genSlugLoopS_eq]
  · rw [gen_slugS, genSlugLoopS_eq, gen_slug]

/-- Each call leaves the shared default-argument list untouched. -/
theorem runCall_state (st : List String) (c : SlugCall) :
    (runCall st c).2 = st := by
  cases h : c.explicitSlugs with
  | some e => simp [runCall, h]
  | none =>
    simp [runCall, h, (gen_slug_no_mutation c.input st c.delimiter).1]

/-- The shared default-argument list is still the original `[]` after
any call history. -/
theorem defaultStateAfter_eq (history : List SlugCall) :
    defaultStateAfter history = [] := by
  have key : ∀ (h : List SlugCall) (st : List String),
      h.foldl (fun st c => (runCall st c).2) st = st := by
    intro h
    induction h with
    | nil => intro st; rfl
    | cons c cs ih => intro st; simp [List.foldl_cons, runCall_state, ih]
  exact key history []

/-- C6: `gen_slug` is deterministic across call histories: after any
sequence of earlier calls the shared mutable default-argument list is
still empty, so the result of the next call depends only on its own
arguments — with an explicit list it equals `gen_slug` on that list, and
a call using the default equals `gen_slug` on `[]`. -/
theorem gen_slug_deterministic (history : List SlugCall) (c : SlugCall) :
    defaultStateAfter history = [] ∧
    (runCall (defaultStateAfter history) c).1 =
      gen_slug c.input (c.explicitSlugs.getD []) c.delimiter := by
  have hstate := defaultStateAfter_eq history
  refine ⟨hstate, ?_⟩
  rw [hstate]
  cases h : c.explicitSlugs with
  | some e =>
    simp [runCall, h, (gen_slug_no_mutation c.input e c.delimiter).2]
  | none =>
    simp [runCall, h, (gen_slug_no_mutation c.input [] c.delimiter).2]

/-! ## Claim C9: `format_date` and `format_datetime` never format -/

set_option maxRecDepth 4000 in
example : format_currency (.int 1000) = .ok (.str "$1,000.00") := by decide
example : format_currency (.str "abc") = .ok (.str "abc") := by decide
example : format_currency (.str " 12.5 ") = .ok (.str "$12.50") := by decide
example : format_currency (.float (-25125) 3) = .ok (.str "$-25.12") := by
  decide
example : format_currency .none = .ok .none := by decide

/-- The guard `type(d) == 'datetime'` of `format_date` compares a type
object against a string, which is never true, whatever the value. -/
theorem pyEq_pyType_str (d : PyVal) (s : String) :
    pyEq (pyType d) (.str s) = false := by
  cases d <;> rfl

/-- C9: for every non-falsy argument (of any embedded kind, including
actual datetime values) `format_date` and `format_datetime` return the
argument itself unchanged — never a strftime-formatted string, because
the guard compares `type(d)` against the string "datetime" — and for
every falsy argument they return the empty string; the `strftime`
formatter never influences the result. -/
theorem format_date_returns_input :
    (∀ (f : PyVal → String → String) (fmt : String) (d : PyVal),
      (isFalsy d = true →
        format_date f d fmt = .str "" ∧ format_datetime f d fmt = .str "") ∧
      (isFalsy d = false →
        format_date f d fmt = d ∧ format_datetime f d fmt = d)) ∧
    (∀ (f g : PyVal → String → String) (fmt : String) (d : PyVal),
      format_date f d fmt = format_date g d fmt ∧
      format_datetime f d fmt = format_datetime g d fmt) := by
  have key : ∀ (f : PyVal → String → String) (fmt : String) (d : PyVal),
      (isFalsy d = true →
        format_date f d fmt = .str "" ∧ format_datetime f d fmt = .str "") ∧
      (isFalsy d = false →
        format_date f d fmt = d ∧ format_datetime f d fmt = d) := by
    intro f fmt d
    constructor
    · intro h
      constructor <;> simp [format_date, format_datetime, h]
    · intro h
      constructor <;>
        simp [format_date, format_datetime, h, pyEq_pyType_str]
  refine ⟨key, ?_⟩
  intro f g fmt d
  cases hf : isFalsy d with
  | true =>
    constructor
    · rw [((key f fmt d).1 hf).1, ((key g fmt d).1 hf).1]
    · rw [((key f fmt d).1 hf).2, ((key g fmt d).1 hf).2]
  | false =>
    constructor
    · rw [((key f fmt d).2 hf).1, ((key g fmt d).2 hf).1]
    · rw [((key f fmt d).2 hf).2, ((key g fmt d).2 hf).2]

/-- Witness for C9: a real datetime value passes through unchanged and a
falsy value yields the empty string, under an explicit formatter that
would have produced a formatted string. -/
theorem format_date_returns_input_witness :
    format_date (fun _ _ => "01/02/2020") (.datetime 2020 2 1 0 0) "%d/%m/%Y"
      = .datetime 2020 2 1 0 0 ∧
    format_datetime (fun _ _ => "01/02/2020 00:00") .none "%d/%m/%Y %H:%M"
      = .str "" :=
  ⟨((format_date_returns_input.1 (fun _ _ => "01/02/2020") "%d/%m/%Y"
      (.datetime 2020 2 1 0 0)).2 rfl).1,
   ((format_date_returns_input.1 (fun _ _ => "01/02/2020 00:00")
      "%d/%m/%Y %H:%M" .none).1 rfl).2⟩

/-! ## Claim C10: error handling of `format_currency` -/

set_option maxRecDepth 4000 in
/-- C10 counterexample: `format_currency` does raise on an input that
cannot be converted to a number — `float()` raises `OverflowError` on
the integer `10 ^ 400`, which the `except (ValueError, TypeError)`
clause does not catch. -/
theorem format_currency_raises :
    format_currency (.int (10 ^ 400)) = .error .overflowError ∧
    ∀ r : PyVal, format_currency (.int (10 ^ 400)) ≠ .ok r := by
  constructor
  · decide
  · intro r h
    rw [(by decide :
      format_currency (.int (10 ^ 400)) = .error .overflowError)] at h
    exact Except.noConfusion h

set_option maxRecDepth 4000 in
/-- C10 (amended): on every value where `float()` fails with
`ValueError` or `TypeError`, `format_currency` returns the value
unchanged; on every float-convertible value it returns "$" followed by
the comma-grouped two-decimal rendering; and the only exception it can
propagate is the `OverflowError` that `float()` raises on huge
integers. -/
theorem format_currency_amended :
    (∀ (v : PyVal) (err : PyErr), pyFloat v = .error err →
      err = .valueError ∨ err = .typeError → format_currency v = .ok v) ∧
    (∀ (v : PyVal) (m : Int) (e : Nat), pyFloat v = .ok (m, e) →
      format_currency v = .ok (.str ("$" ++ formatCurrencyNumber m e))) ∧
    (∀ v : PyVal, (∃ err, format_currency v = .error err) ↔
      pyFloat v = .error .overflowError) ∧
    format_currency (.str "not a number") = .ok (.str "not a number") ∧
    format_currency .none = .ok .none ∧
    format_currency (.int 1000) = .ok (.str "$1,000.00") := by
  refine ⟨?_, ?_, ?_, by decide, by decide, by decide⟩
  · intro v err h1 h2
    simp only [format_currency, h1]
    rcases h2 with h2 | h2 <;> subst h2 <;> rfl
  · intro v m e h1
    simp only [format_currency, h1]
  · intro v
    constructor
    · rintro ⟨err, herr⟩
      cases hp : pyFloat v with
      | ok p =>
        rw [show format_currency v = .ok (.str ("$" ++
            formatCurrencyNumber p.1 p.2)) from by simp only [format_currency, hp]]
          at herr
        exact Except.noConfusion herr
      | error e2 =>
        simp only [format_currency, hp] at herr
        by_cases h2 : e2 = .valueError ∨ e2 = .typeError
        · rw [if_pos h2] at herr
          exact Except.noConfusion herr
        · cases e2 with
          | overflowError => rfl
          | valueError => exact absurd (Or.inl rfl) h2
          | typeError => exact absurd (Or.inr rfl) h2
    · intro hp
      refine ⟨.overflowError, ?_⟩
      simp [format_currency, hp]

set_option maxRecDepth 4000 in
/-- Witness for the amended C10 at concrete inputs. -/
theorem format_currency_amended_witness :
    format_currency (.str "n/a") = .ok (.str "n/a") ∧
    format_currency (.int 5) = .ok (.str ("$" ++ formatCurrencyNumber 5 0)) :=
  ⟨format_currency_amended.1 (.str "n/a") .valueError (by decide)
      (Or.inl rfl),
   format_currency_amended.2.1 (.int 5) 5 0 (by decide)⟩

/-- Witness for C1 at a concrete colliding input. -/
theorem gen_slug_not_mem_witness :
    gen_slug "a" ["a"] "-" ∉ ["a"] :=
  gen_slug_not_mem "a" ["a"] "-"

/-- Witness for C5 at a concrete input. -/
theorem gen_slug_no_mutation_witness :
    (gen_slugS "Hello World" ["hello-world"] "-").2 = ["hello-world"] ∧
    (gen_slugS "Hello World" ["hello-world"] "-").1 =
      gen_slug "Hello World" ["hello-world"] "-" :=
  gen_slug_no_mutation "Hello World" ["hello-world"] "-"

/-- Witness for C6 after a concrete one-call history. -/
theorem gen_slug_deterministic_witness :
    defaultStateAfter [⟨"a", Option.none, "-"⟩] = [] ∧
    (runCall (defaultStateAfter [⟨"a", Option.none, "-"⟩])
        ⟨"b", some ["b"], "-"⟩).1 =
      gen_slug "b" ((some ["b"]).getD []) "-" :=
  gen_slug_deterministic [⟨"a", Option.none, "-"⟩] ⟨"b", some ["b"], "-"⟩
